import Mathlib

/-!
Verification of the loqa-meetings audio pipeline core.

This file gives a shallow embedding, in Lean 4, of the pure core of the
repository's audio pipeline:

* `src/audio/mixer.rs`   — `AudioMixer` (stream synchronizer),
* `src/audio/chunk.rs`   — `ChunkedRecorder` (chunk persistence),
* `src/session/session.rs` — `RecordingSession` (per-frame transform,
  audio-publish task, lifecycle flag).

Machine integers (`i16`, `i32`, `u32`, `u64`, `usize`) are modelled as
`Int` / `Nat`; every arithmetic spot where the Rust code clamps or
saturates is modelled explicitly. Fallible Rust functions returning
`anyhow::Result` are modelled with `Except String`. Stateful methods
become explicit state-passing functions.
-/

namespace LoqaMeetings

/-- `AudioStreamSource` from `src/audio/backend.rs`: tag of an audio stream. -/
inductive AudioStreamSource where
  | System
  | Microphone
deriving DecidableEq, Repr, Fintype

/-- `AudioFrame` from `src/audio/backend.rs`. Samples are `i16` PCM values
modelled as `Int`; `sample_rate : u32`, `channels : u16` and
`timestamp_ms : u64` are modelled as `Nat`. -/
structure AudioFrame where
  samples : List Int
  sample_rate : Nat
  channels : Nat
  timestamp_ms : Nat
  source : AudioStreamSource
deriving DecidableEq, Repr

/-- `MixerConfig` from `src/audio/mixer.rs`. The `HashSet` of enabled
sources is modelled as a duplicate-free list (theorems that depend on
set-ness carry a `Nodup` hypothesis). -/
structure MixerConfig where
  sample_rate : Nat
  channels : Nat
  max_buffer_delay_ms : Nat
  enabled_sources : List AudioStreamSource
deriving DecidableEq, Repr

/-- Mutable state of `AudioMixer` (`src/audio/mixer.rs`): the per-source
ready-frame queues (`buffers: HashMap<AudioStreamSource, VecDeque<AudioFrame>>`,
modelled as a total function that is `[]` outside the map's key set), the
per-source sample accumulators (`frame_accumulator`), and
`current_position_ms`. -/
structure MixerState where
  buffers : AudioStreamSource → List AudioFrame
  frame_accumulator : AudioStreamSource → List Int
  current_position_ms : Nat

/-- The fresh state built by `AudioMixer::new`: empty queues and
accumulators, position 0. -/
def MixerState.initial : MixerState :=
  { buffers := fun _ => []
    frame_accumulator := fun _ => []
    current_position_ms := 0 }

/-- `sum.clamp(i16::MIN as i32, i16::MAX as i32)` from
`AudioMixer::mix_multiple_frames` (and the identical clamp in
`RecordingSession::stereo_to_mono`). -/
def clampI16 (x : Int) : Int := max (-32768) (min x 32767)

/-- `frame.samples.get(i).copied().unwrap_or(0)`: the `i`-th sample of a
frame, with silence (0) past the end. -/
def sampleAt (f : AudioFrame) (i : Nat) : Int := f.samples.getD i 0

/-- `iter().min().unwrap_or(0)` over a list of `u64`. -/
def minOr0 : List Nat → Nat
  | [] => 0
  | x :: xs => xs.foldl Nat.min x

/-- `iter().max().unwrap_or(0)` over a list of `usize`. -/
def maxOr0 : List Nat → Nat
  | [] => 0
  | x :: xs => xs.foldl Nat.max x

/-- `AudioMixer::mix_multiple_frames` (src/audio/mixer.rs lines 234-273):
bails on an empty slice; otherwise output timestamp is the minimum input
timestamp, output length the maximum input sample count, and each output
sample the clamped sum of the corresponding input samples (missing
samples contribute 0). The output frame carries the mixer config's
sample rate and channel count and is tagged `System`. -/
def mix_multiple_frames (cfg : MixerConfig) (frames : List AudioFrame) :
    Except String AudioFrame :=
  if frames.isEmpty then
    .error "Cannot mix zero frames"
  else
    let timestamp_ms := minOr0 (frames.map (·.timestamp_ms))
    let max_len := maxOr0 (frames.map (·.samples.length))
    let mixed_samples :=
      (List.range max_len).map fun i =>
        clampI16 (frames.foldl (fun sum f => sum + sampleAt f i) 0)
    .ok { samples := mixed_samples
          sample_rate := cfg.sample_rate
          channels := cfg.channels
          timestamp_ms := timestamp_ms
          source := AudioStreamSource.System }

/-- Target frame size from `AudioMixer::buffer_frame`:
`(self.config.sample_rate as f64 * 0.02) as usize`. For every `u32`
sample rate this `f64` computation followed by truncation equals
`⌊rate / 50⌋`: the `f64` literal `0.02` exceeds `1/50` by about
`4.2e-19`, so the product's relative error stays below half an ulp and
rounding never crosses an integer or a fraction boundary. -/
def targetSize (rate : Nat) : Nat := rate / 50

/-- The `while accumulator.len() >= target_size` loop of
`AudioMixer::buffer_frame`: repeatedly drain `target` samples from the
front of the accumulator. Returns the drained full-size frames' sample
lists (in order) and the remaining accumulator. In Rust a `target` of 0
would loop forever; here the guard `0 < target` stops instead, and every
theorem about this loop assumes `0 < target`. -/
def cutFramesAux (target : Nat) : Nat → List Int → List (List Int) × List Int
  | 0, acc => ([], acc)
  | fuel + 1, acc =>
      if 0 < target ∧ target ≤ acc.length then
        let rest := cutFramesAux target fuel (acc.drop target)
        (acc.take target :: rest.1, rest.2)
      else
        ([], acc)

/-- The loop runs at most `acc.length` times (each iteration removes
`target ≥ 1` samples), so that much fuel reproduces it exactly. -/
def cutFrames (target : Nat) (acc : List Int) : List (List Int) × List Int :=
  cutFramesAux target acc.length acc

/-- `AudioMixer::cleanup_old_frames` inner `while let` loop: pop stale
frames from the front of one queue, stopping at the first frame at or
after the cutoff. -/
def dropOldFront (cutoff : Nat) : List AudioFrame → List AudioFrame
  | [] => []
  | f :: rest =>
      if f.timestamp_ms < cutoff then dropOldFront cutoff rest
      else f :: rest

/-- `AudioMixer::cleanup_old_frames` (src/audio/mixer.rs lines 174-193):
compute `cutoff = current_position_ms.saturating_sub(max_buffer_delay_ms)`
(saturating `u64` subtraction = `Nat` subtraction) and prune the stale
front of every queue in the buffer map (whose key set is the enabled
sources). -/
def cleanup_old_frames (cfg : MixerConfig) (st : MixerState) : MixerState :=
  let cutoff := st.current_position_ms - cfg.max_buffer_delay_ms
  { st with
    buffers := fun s =>
      if s ∈ cfg.enabled_sources then dropOldFront cutoff (st.buffers s)
      else st.buffers s }

/-- The accumulate-and-cut body of `AudioMixer::buffer_frame`
(src/audio/mixer.rs lines 121-167, before the final
`cleanup_old_frames` call): reject the frame if its source is not
enabled or its sample rate or channel count mismatches the config
(early `return`, so no cleanup either); otherwise append its samples to
the source's accumulator and cut full `targetSize` frames to the back of
the source's ready queue, each stamped with the incoming frame's
timestamp, rate, channels and source. -/
def buffer_frame_accumulate (cfg : MixerConfig) (st : MixerState)
    (frame : AudioFrame) : MixerState :=
  if frame.source ∉ cfg.enabled_sources then st
  else if frame.sample_rate ≠ cfg.sample_rate then st
  else if frame.channels ≠ cfg.channels then st
  else
    let acc := st.frame_accumulator frame.source ++ frame.samples
    let cut := cutFrames (targetSize cfg.sample_rate) acc
    let newFrames := cut.1.map fun s =>
      { samples := s
        sample_rate := frame.sample_rate
        channels := frame.channels
        timestamp_ms := frame.timestamp_ms
        source := frame.source : AudioFrame }
    { st with
      frame_accumulator := fun s =>
        if s = frame.source then cut.2 else st.frame_accumulator s
      buffers := fun s =>
        if s = frame.source then st.buffers s ++ newFrames else st.buffers s }

/-- `AudioMixer::buffer_frame` (src/audio/mixer.rs lines 121-171):
accumulate-and-cut, then `cleanup_old_frames` — but the three rejection
branches `return` before the cleanup, so a rejected frame leaves the
state wholly untouched. -/
def buffer_frame (cfg : MixerConfig) (st : MixerState)
    (frame : AudioFrame) : MixerState :=
  if frame.source ∉ cfg.enabled_sources then st
  else if frame.sample_rate ≠ cfg.sample_rate then st
  else if frame.channels ≠ cfg.channels then st
  else cleanup_old_frames cfg (buffer_frame_accumulate cfg st frame)

/-- `AudioMixer::mix_next_chunk` (src/audio/mixer.rs lines 201-229):
if any enabled source's ready queue is empty, emit nothing and leave the
state unchanged; otherwise pop the front frame of every enabled queue,
mix them with `mix_multiple_frames`, advance `current_position_ms` to
the mixed frame's timestamp and emit it. (The defensive
`frames_to_mix.len() == enabled_sources.len()` re-check of the Rust code
is preserved.) -/
def mix_next_chunk (cfg : MixerConfig) (st : MixerState) :
    Except String (Option AudioFrame × MixerState) :=
  let all_sources_ready := cfg.enabled_sources.all fun s => !(st.buffers s).isEmpty
  if !all_sources_ready then
    .ok (none, st)
  else
    let frames_to_mix := cfg.enabled_sources.filterMap fun s => (st.buffers s).head?
    let st' := { st with
      buffers := fun s =>
        if s ∈ cfg.enabled_sources then (st.buffers s).tail else st.buffers s }
    if frames_to_mix.length = cfg.enabled_sources.length then
      match mix_multiple_frames cfg frames_to_mix with
      | .error e => .error e
      | .ok mixed =>
          .ok (some mixed, { st' with current_position_ms := mixed.timestamp_ms })
    else
      .ok (none, st')

/-- One iteration of the `while let Some(frame) = audio_rx.recv()` loop of
`AudioMixer::mix` (src/audio/mixer.rs lines 95-103): buffer the frame,
then try `mix_next_chunk`, appending an emitted frame to the output. -/
def mixStep (cfg : MixerConfig) (st : MixerState) (frame : AudioFrame) :
    Except String (MixerState × Option AudioFrame) :=
  match mix_next_chunk cfg (buffer_frame cfg st frame) with
  | .error e => .error e
  | .ok (out, st') => .ok (st', out)

/-- The main receive loop of `AudioMixer::mix` over a finite input
stream, threading the state and collecting emitted frames in order. -/
def mixLoop (cfg : MixerConfig) (st : MixerState) :
    List AudioFrame → Except String (MixerState × List AudioFrame)
  | [] => .ok (st, [])
  | frame :: rest =>
      match mixStep cfg st frame with
      | .error e => .error e
      | .ok (st1, out) =>
          match mixLoop cfg st1 rest with
          | .error e => .error e
          | .ok (st2, outs) => .ok (st2, out.toList ++ outs)

/-- The flush loop of `AudioMixer::mix` (lines 106-108):
`while let Some(mixed) = self.mix_next_chunk()? { ... }`, run with
explicit fuel (each emission pops one frame from every enabled queue, so
any fuel at least the total queued-frame count reproduces the Rust
loop's behaviour; the theorems below hold for every fuel). -/
def mixFlush (cfg : MixerConfig) : Nat → MixerState →
    Except String (MixerState × List AudioFrame)
  | 0, st => .ok (st, [])
  | fuel + 1, st =>
      match mix_next_chunk cfg st with
      | .error e => .error e
      | .ok (none, st') => .ok (st', [])
      | .ok (some f, st') =>
          match mixFlush cfg fuel st' with
          | .error e => .error e
          | .ok (st'', outs) => .ok (st'', f :: outs)

/-- `AudioMixer::mix` (src/audio/mixer.rs lines 87-116) over a finite
input stream, starting from the fresh `AudioMixer::new` state: run the
receive loop, then the flush loop (with the given fuel). Returns the
final mixer state together with all mixed frames in emission order. -/
def mix (cfg : MixerConfig) (fuel : Nat) (input : List AudioFrame) :
    Except String (MixerState × List AudioFrame) :=
  match mixLoop cfg MixerState.initial input with
  | .error e => .error e
  | .ok (st, outs) =>
      match mixFlush cfg fuel st with
      | .error e => .error e
      | .ok (st', flushed) => .ok (st', outs ++ flushed)

/-! ### Chunk persistence (`src/audio/chunk.rs`) -/

/-- `ChunkConfig` from `src/audio/chunk.rs` (the output directory and
meeting id only name the on-disk file, which is outside this embedding). -/
structure ChunkConfig where
  chunk_duration_secs : Nat
deriving DecidableEq, Repr

/-- `ChunkMetadata` from `src/audio/chunk.rs`, without the `file_path`
(a filesystem artifact). -/
structure ChunkMetadata where
  chunk_index : Nat
  start_ms : Nat
  end_ms : Nat
  sample_rate : Nat
  channels : Nat
  sample_count : Nat
deriving DecidableEq, Repr

/-- State of `ChunkedRecorder`: the optional open chunk's metadata (the
WAV writer's pure shadow), the chunk index counter and the meeting start
timestamp. -/
structure RecorderState where
  current_chunk : Option ChunkMetadata
  chunk_index : Nat
  meeting_start_ms : Nat
deriving DecidableEq, Repr

/-- The fresh state built by `ChunkedRecorder::new`. -/
def RecorderState.initial : RecorderState :=
  { current_chunk := none, chunk_index := 0, meeting_start_ms := 0 }

/-- `ChunkedRecorder::should_start_new_chunk` (src/audio/chunk.rs lines
140-150): true when no chunk is open, or when
`frame.timestamp_ms - chunk.start_ms >= chunk_duration_secs * 1000`
(`u64` subtraction; all theorems below use it on non-decreasing
timestamps, where it agrees with `Nat` subtraction). -/
def should_start_new_chunk (cfg : ChunkConfig) (st : RecorderState)
    (frame : AudioFrame) : Bool :=
  match st.current_chunk with
  | none => true
  | some chunk =>
      cfg.chunk_duration_secs * 1000 ≤ frame.timestamp_ms - chunk.start_ms

/-- The metadata record `ChunkWriter::new` builds: fresh metadata
starting (and for now ending) at the frame's timestamp with zero
samples. -/
def freshChunk (st : RecorderState) (frame : AudioFrame) : ChunkMetadata :=
  { chunk_index := st.chunk_index
    start_ms := frame.timestamp_ms
    end_ms := frame.timestamp_ms
    sample_rate := frame.sample_rate
    channels := frame.channels
    sample_count := 0 }

/-- `ChunkedRecorder::start_new_chunk` (src/audio/chunk.rs lines
152-169) composed with `ChunkWriter::new`: open a fresh chunk and
increment the chunk index counter. -/
def start_new_chunk (st : RecorderState) (frame : AudioFrame) : RecorderState :=
  { st with
    current_chunk := some (freshChunk st frame)
    chunk_index := st.chunk_index + 1 }

/-- `ChunkWriter::write_frame` effect on the metadata: extend the end
timestamp to the frame's and add the frame's sample count. -/
def writeFrameMeta (c : ChunkMetadata) (frame : AudioFrame) : ChunkMetadata :=
  { c with end_ms := frame.timestamp_ms
           sample_count := c.sample_count + frame.samples.length }

/-- The rotation-and-write part of one `ChunkedRecorder::record` loop
iteration (src/audio/chunk.rs lines 94-116): if a new chunk should
start, finalize the open chunk (appending its metadata to the result
list) and open a new one; then write the frame into the open chunk. -/
def recordStepCore (cfg : ChunkConfig) (st : RecorderState)
    (metadata : List ChunkMetadata) (frame : AudioFrame) :
    RecorderState × List ChunkMetadata :=
  let rotated :=
    if should_start_new_chunk cfg st frame then
      let metadata := match st.current_chunk with
        | some c => metadata ++ [c]
        | none => metadata
      (start_new_chunk st frame, metadata)
    else (st, metadata)
  match rotated.1.current_chunk with
  | some c =>
      ({ rotated.1 with current_chunk := some (writeFrameMeta c frame) }, rotated.2)
  | none => (rotated.1, rotated.2)

/-- One iteration of the receive loop of `ChunkedRecorder::record`
(src/audio/chunk.rs lines 88-117): set the meeting start from the first
frame, then rotate and write. -/
def recordStep (cfg : ChunkConfig) (acc : RecorderState × List ChunkMetadata)
    (frame : AudioFrame) : RecorderState × List ChunkMetadata :=
  let st := if acc.1.meeting_start_ms = 0 then
              { acc.1 with meeting_start_ms := frame.timestamp_ms }
            else acc.1
  recordStepCore cfg st acc.2 frame

/-- `ChunkedRecorder::record` (src/audio/chunk.rs lines 80-138) over a
finite input stream from the fresh recorder state: fold the receive
loop, then finalize the still-open chunk unconditionally. Returns the
finalized chunk metadata in creation order. -/
def record (cfg : ChunkConfig) (input : List AudioFrame) : List ChunkMetadata :=
  let r := input.foldl (recordStep cfg) (RecorderState.initial, [])
  match r.1.current_chunk with
  | some c => r.2 ++ [c]
  | none => r.2

/-! ### Per-frame transform and audio-publish task
(`src/session/session.rs`) -/

/-- `samples.iter().step_by(ratio)`: keep every `n`-th sample starting
from the first. -/
def stepBy (n : Nat) : List Int → List Int
  | [] => []
  | x :: rest => x :: stepBy n (rest.drop (n - 1))
termination_by l => l.length
decreasing_by
  simp only [List.length_drop, List.length_cons]
  omega

/-- `RecordingSession::downsample_frame` (src/session/session.rs lines
320-345): decimate by the integer ratio `sample_rate / target_rate`;
equal rates or ratio ≤ 1 return the frame unchanged. (Rust would panic
on `target_rate = 0`; here `Nat` division yields ratio 0 ≤ 1, a no-op —
no theorem below touches that case.) -/
def downsample_frame (frame : AudioFrame) (target_rate : Nat) : AudioFrame :=
  if frame.sample_rate = target_rate then frame
  else
    let ratio := frame.sample_rate / target_rate
    if ratio ≤ 1 then frame
    else
      { frame with samples := stepBy ratio frame.samples
                   sample_rate := target_rate }

/-- The `chunks_exact(2)` summing loop of
`RecordingSession::stereo_to_mono`: each `[L, R]` pair becomes
`clamp(L + R, -32768, 32767)`; a trailing unpaired sample is dropped
(as `chunks_exact` drops the remainder). -/
def monoPairs : List Int → List Int
  | [] => []
  | [a] => []
  | a :: b :: rest => clampI16 (a + b) :: monoPairs rest

/-- `RecordingSession::stereo_to_mono` (src/session/session.rs lines
348-375): a mono frame is returned unchanged; a two-channel frame has
its interleaved pairs summed and clamped with the channel count set to
1; any other channel count passes through unchanged. -/
def stereo_to_mono (frame : AudioFrame) : AudioFrame :=
  if frame.channels = 1 then frame
  else if frame.channels ≠ 2 then frame
  else
    { frame with samples := monoPairs frame.samples
                 channels := 1 }

/-- `RecordingSession::process_frame` (src/session/session.rs lines
299-317): downsample when the rate differs, then collapse channels when
the channel count differs and the target is mono. -/
def process_frame (frame : AudioFrame) (target_sample_rate target_channels : Nat) :
    AudioFrame :=
  let p := if frame.sample_rate ≠ target_sample_rate then
             downsample_frame frame target_sample_rate
           else frame
  if p.channels ≠ target_channels ∧ target_channels = 1 then stereo_to_mono p
  else p

/-- `s.to_le_bytes()` for an `i16` sample modelled as `Int`: the two's
complement little-endian byte pair. -/
def i16LeBytes (s : Int) : List Nat :=
  let u := (s % 65536).toNat
  [u % 256, u / 256]

/-- The PCM byte conversion of the audio task
(`processed_frame.samples.iter().flat_map(|s| s.to_le_bytes())`). -/
def pcmBytes (samples : List Int) : List Nat :=
  samples.flatMap i16LeBytes

/-- The fields of an `AudioFrameMessage` (src/nats/messages.rs) that the
audio task computes per publish: the base64 encoding, the session id and
the wall-clock timestamp are outside this embedding. -/
structure Envelope where
  pcm : List Nat
  sample_rate : Nat
  channels : Nat
  sequence : Nat
  final_frame : Bool
deriving DecidableEq, Repr

/-- The per-frame body of the audio task of `RecordingSession::start`
(src/session/session.rs lines 108-138): process the frame, convert to
PCM bytes, take the next sequence number (`fetch_add`), and publish a
non-final envelope. -/
def audioTaskEnvelope (sample_rate channels : Nat) (seq : Nat)
    (frame : AudioFrame) : Envelope :=
  { pcm := pcmBytes (process_frame frame sample_rate channels).samples
    sample_rate := sample_rate
    channels := channels
    sequence := seq
    final_frame := false }

/-- The receive loop of the audio task over a finite capture stream,
threading the `frame_sequence` counter. -/
def audioTaskLoop (sample_rate channels : Nat) (seq : Nat) :
    List AudioFrame → List Envelope
  | [] => []
  | frame :: rest =>
      audioTaskEnvelope sample_rate channels seq frame ::
        audioTaskLoop sample_rate channels (seq + 1) rest

/-- The audio task of `RecordingSession::start` (src/session/session.rs
lines 105-160) over a finite capture stream, with the `frame_sequence`
counter starting at `seq0` (0 for a fresh session): publish one
non-final envelope per frame, then, when the stream ends, one final
envelope with an empty payload and the counter's current value as its
sequence number. -/
def audioTask (sample_rate channels : Nat) (seq0 : Nat)
    (input : List AudioFrame) : List Envelope :=
  audioTaskLoop sample_rate channels seq0 input ++
    [{ pcm := []
       sample_rate := sample_rate
       channels := channels
       sequence := seq0 + input.length
       final_frame := true }]

/-! ### Session lifecycle flag (`src/session/session.rs`) -/

/-- A call on a `RecordingSession`. -/
inductive SessionOp where
  | start
  | stop
deriving DecidableEq, Repr

/-- The effect of `RecordingSession::start` (lines 70-79) and
`RecordingSession::stop` (lines 237-246) on the `is_recording` flag —
the session's entire lifecycle state: `start` returns early when
already recording and otherwise stores `true` (spawning fresh
pipelines); `stop` returns early when not recording and otherwise
stores `false`. -/
def applySessionOp (is_recording : Bool) : SessionOp → Bool
  | .start => if is_recording then is_recording else true
  | .stop => if !is_recording then is_recording else false

/-- A sequence of `start`/`stop` calls on a session. -/
def runSessionOps (is_recording : Bool) (ops : List SessionOp) : Bool :=
  ops.foldl applySessionOp is_recording

/-! ### Concrete fixtures used by witnesses and counterexamples -/

/-- A 16 kHz mono mixer configuration with both sources enabled
(the `MixerConfig::default()` of the Rust code). -/
def exCfg16k : MixerConfig :=
  { sample_rate := 16000, channels := 1, max_buffer_delay_ms := 200,
    enabled_sources := [AudioStreamSource.System, AudioStreamSource.Microphone] }

/-- A 16 kHz mono frame at timestamp 0 with the given samples and source. -/
def frame16k (samples : List Int) (src : AudioStreamSource) : AudioFrame :=
  { samples := samples, sample_rate := 16000, channels := 1,
    timestamp_ms := 0, source := src }

/-- A 2-second chunk configuration. -/
def c3Cfg : ChunkConfig := { chunk_duration_secs := 2 }

/-- 50 frames of 1600 samples each at 100 ms spacing (16 kHz). -/
def c3Frames : List AudioFrame :=
  (List.range 50).map fun i =>
    { samples := List.replicate 1600 0, sample_rate := 16000, channels := 1,
      timestamp_ms := 100 * i, source := AudioStreamSource.System }

/-- Modelled from the spec's words (`round(sample_rate * 0.02)` samples per
standard-duration frame): rounding to the nearest integer, half away from
zero. Compared against the source-derived `targetSize`, which truncates. -/
def specRoundTarget (rate : Nat) : Nat := (rate * 2 + 50) / 100

/-- A mixer configuration whose sample rate 16030 separates truncation
(`targetSize 16030 = 320`) from rounding (`specRoundTarget 16030 = 321`). -/
def c5Cfg : MixerConfig :=
  { sample_rate := 16030, channels := 1, max_buffer_delay_ms := 200,
    enabled_sources := [AudioStreamSource.System] }

/-- A 321-sample frame at rate 16030: long enough for one spec-rounded
standard frame, and for one code-truncated standard frame with one
sample left over. -/
def c5Frame : AudioFrame :=
  { samples := List.replicate 321 0, sample_rate := 16030, channels := 1,
    timestamp_ms := 0, source := AudioStreamSource.System }

/-- A frame at timestamp 0, staler than 1000 ms - 200 ms. -/
def c6StaleFrame : AudioFrame :=
  { samples := [0], sample_rate := 16000, channels := 1,
    timestamp_ms := 0, source := AudioStreamSource.System }

/-- A mixer state whose System queue holds one frame at timestamp 0 while
the output position is already 1000 ms: that frame is staler than the
200 ms buffer delay allows. -/
def c6StaleState : MixerState :=
  { buffers := fun s =>
      if s = AudioStreamSource.System then [c6StaleFrame] else []
    frame_accumulator := fun _ => []
    current_position_ms := 1000 }

/-- A frame whose sample rate (8000) mismatches `exCfg16k`, so
`buffer_frame` rejects it before reaching `cleanup_old_frames`. -/
def c6BadFrame : AudioFrame :=
  { samples := [1, 2, 3], sample_rate := 8000, channels := 1,
    timestamp_ms := 1000, source := AudioStreamSource.System }

/-- A tiny mixer configuration (rate 50, so the standard frame is a
single sample) used to exercise emission in witnesses. -/
def wCfg : MixerConfig :=
  { sample_rate := 50, channels := 1, max_buffer_delay_ms := 200,
    enabled_sources := [AudioStreamSource.System, AudioStreamSource.Microphone] }

/-- One-sample frame at rate 50 for the given source and timestamp. -/
def wFrame (v : Int) (ts : Nat) (src : AudioStreamSource) : AudioFrame :=
  { samples := [v], sample_rate := 50, channels := 1,
    timestamp_ms := ts, source := src }

/-- A mixer state in which both sources of `exCfg16k` have one ready
frame, so `mix_next_chunk` emits. -/
def wReadyState : MixerState :=
  { buffers := fun s => [frame16k [1, 2] s]
    frame_accumulator := fun _ => []
    current_position_ms := 0 }

/-- A mixer state in which the Microphone queue of `exCfg16k` is empty,
so `mix_next_chunk` emits nothing. -/
def wStalledState : MixerState :=
  { buffers := fun s =>
      if s = AudioStreamSource.System then [frame16k [7] AudioStreamSource.System]
      else []
    frame_accumulator := fun _ => []
    current_position_ms := 0 }

/-- Extract the result pair of a `mix_next_chunk` call (state unchanged
on error); lets witnesses name the computed post-state. -/
def mixChunkResult (cfg : MixerConfig) (st : MixerState) :
    Option AudioFrame × MixerState :=
  match mix_next_chunk cfg st with
  | .ok r => r
  | .error _ => (none, st)

/-- Extract the result pair of a `mix` run (empty on error); lets
witnesses name the computed final state and output list. -/
def mixResult (cfg : MixerConfig) (fuel : Nat) (input : List AudioFrame) :
    MixerState × List AudioFrame :=
  match mix cfg fuel input with
  | .ok r => r
  | .error _ => (MixerState.initial, [])

/-- The default used when indexing into envelope lists. -/
def defaultEnvelope : Envelope :=
  { pcm := [], sample_rate := 0, channels := 0, sequence := 0, final_frame := false }

/-- Whether `AudioMixer::buffer_frame` accepts a frame under a config:
enabled source, matching sample rate and channel count. -/
def accepts (cfg : MixerConfig) (f : AudioFrame) : Bool :=
  decide (f.source ∈ cfg.enabled_sources) &&
    (f.sample_rate == cfg.sample_rate) && (f.channels == cfg.channels)

/-- Total sample count the mixer accepts into source `s`'s accumulator
from a finite input stream. -/
def acceptedSamples (cfg : MixerConfig) (input : List AudioFrame)
    (s : AudioStreamSource) : Nat :=
  ((input.filter fun f => accepts cfg f && (f.source == s)).map
    (·.samples.length)).sum

/-- A concrete stereo frame used by the channel-collapse witness. -/
def c7Frame : AudioFrame :=
  { samples := [100, 200, 30000, 30000], sample_rate := 48000,
    channels := 2, timestamp_ms := 5, source := AudioStreamSource.Microphone }

/-- Input used by mixer-level witnesses: one single-sample frame per
source at rate 50, so each frame alone fills a standard-duration unit. -/
def wMixInput : List AudioFrame :=
  [wFrame 1 0 AudioStreamSource.System, wFrame 2 0 AudioStreamSource.Microphone]

/-- The one frame `mix wCfg 0 wMixInput` emits: the clamped sum of the
two single-sample inputs. -/
def wMixedFrame : AudioFrame :=
  { samples := [3], sample_rate := 50, channels := 1, timestamp_ms := 0,
    source := AudioStreamSource.System }

/-- A one-source mixer configuration at rate 100 (standard frame of 2
samples), used by the partial-unit witness. -/
def w9Cfg : MixerConfig :=
  { sample_rate := 100, channels := 1, max_buffer_delay_ms := 200,
    enabled_sources := [AudioStreamSource.System] }

/-- A single 3-sample frame for `w9Cfg`: one full 2-sample unit plus one
leftover sample that stays in the accumulator. -/
def w9Input : List AudioFrame :=
  [{ samples := [5, 6, 7], sample_rate := 100, channels := 1,
     timestamp_ms := 0, source := AudioStreamSource.System }]

/-! ## Helper lemmas -/

theorem foldl_min_le_init (xs : List Nat) (a : Nat) : xs.foldl Nat.min a ≤ a := by
  induction xs generalizing a with
  | nil => simp
  | cons x xs ih =>
      calc (x :: xs).foldl Nat.min a = xs.foldl Nat.min (Nat.min a x) := rfl
        _ ≤ Nat.min a x := ih _
        _ ≤ a := Nat.min_le_left _ _

theorem foldl_min_le_mem (xs : List Nat) (a y : Nat) (hy : y ∈ xs) :
    xs.foldl Nat.min a ≤ y := by
  induction xs generalizing a with
  | nil => cases hy
  | cons x xs ih =>
      rcases List.mem_cons.mp hy with h | h
      · subst h
        calc (y :: xs).foldl Nat.min a = xs.foldl Nat.min (Nat.min a y) := rfl
          _ ≤ Nat.min a y := foldl_min_le_init _ _
          _ ≤ y := Nat.min_le_right _ _
      · exact ih _ h

theorem foldl_min_mem (xs : List Nat) (a : Nat) :
    xs.foldl Nat.min a = a ∨ xs.foldl Nat.min a ∈ xs := by
  induction xs generalizing a with
  | nil => left; rfl
  | cons x xs ih =>
      have : (x :: xs).foldl Nat.min a = xs.foldl Nat.min (Nat.min a x) := rfl
      rw [this]
      rcases ih (Nat.min a x) with h | h
      · rcases Nat.le_total a x with hax | hxa
        · left; rw [h]; exact Nat.min_eq_left hax
        · right
          have hx : Nat.min a x = x := Nat.min_eq_right hxa
          rw [h, hx]; exact List.mem_cons_self _ _
      · right; exact List.mem_cons_of_mem _ h

theorem minOr0_le (l : List Nat) (y : Nat) (hy : y ∈ l) : minOr0 l ≤ y := by
  cases l with
  | nil => cases hy
  | cons x xs =>
      rcases List.mem_cons.mp hy with h | h
      · subst h; exact foldl_min_le_init _ _
      · exact foldl_min_le_mem _ _ _ h

theorem minOr0_mem (l : List Nat) (h : l ≠ []) : minOr0 l ∈ l := by
  cases l with
  | nil => exact absurd rfl h
  | cons x xs =>
      rcases foldl_min_mem xs x with h' | h'
      · rw [minOr0, h']; exact List.mem_cons_self _ _
      · exact List.mem_cons_of_mem _ h'

theorem foldl_max_ge_init (xs : List Nat) (a : Nat) : a ≤ xs.foldl Nat.max a := by
  induction xs generalizing a with
  | nil => simp
  | cons x xs ih =>
      calc a ≤ Nat.max a x := Nat.le_max_left _ _
        _ ≤ xs.foldl Nat.max (Nat.max a x) := ih _
        _ = (x :: xs).foldl Nat.max a := rfl

theorem foldl_max_ge_mem (xs : List Nat) (a y : Nat) (hy : y ∈ xs) :
    y ≤ xs.foldl Nat.max a := by
  induction xs generalizing a with
  | nil => cases hy
  | cons x xs ih =>
      rcases List.mem_cons.mp hy with h | h
      · subst h
        calc y ≤ Nat.max a y := Nat.le_max_right _ _
          _ ≤ xs.foldl Nat.max (Nat.max a y) := foldl_max_ge_init _ _
          _ = (y :: xs).foldl Nat.max a := rfl
      · exact ih _ h

theorem foldl_max_mem (xs : List Nat) (a : Nat) :
    xs.foldl Nat.max a = a ∨ xs.foldl Nat.max a ∈ xs := by
  induction xs generalizing a with
  | nil => left; rfl
  | cons x xs ih =>
      have : (x :: xs).foldl Nat.max a = xs.foldl Nat.max (Nat.max a x) := rfl
      rw [this]
      rcases ih (Nat.max a x) with h | h
      · rcases Nat.le_total a x with hax | hxa
        · right
          have hx : Nat.max a x = x := Nat.max_eq_right hax
          rw [h, hx]; exact List.mem_cons_self _ _
        · left; rw [h]; exact Nat.max_eq_left hxa
      · right; exact List.mem_cons_of_mem _ h

theorem maxOr0_ge (l : List Nat) (y : Nat) (hy : y ∈ l) : y ≤ maxOr0 l := by
  cases l with
  | nil => cases hy
  | cons x xs =>
      rcases List.mem_cons.mp hy with h | h
      · subst h; exact foldl_max_ge_init _ _
      · exact foldl_max_ge_mem _ _ _ h

theorem maxOr0_mem (l : List Nat) (h : l ≠ []) : maxOr0 l ∈ l := by
  cases l with
  | nil => exact absurd rfl h
  | cons x xs =>
      rcases foldl_max_mem xs x with h' | h'
      · rw [maxOr0, h']; exact List.mem_cons_self _ _
      · exact List.mem_cons_of_mem _ h'

theorem foldl_add_sampleAt (frames : List AudioFrame) (i : Nat) (init : Int) :
    frames.foldl (fun sum f => sum + sampleAt f i) init
      = init + (frames.map fun f => f.samples.getD i 0).sum := by
  induction frames generalizing init with
  | nil => simp
  | cons f fs ih =>
      simp only [List.foldl_cons, List.map_cons, List.sum_cons, ih]
      simp [sampleAt]
      ring

theorem mix_multiple_frames_fields (cfg : MixerConfig) (frames : List AudioFrame)
    (f : AudioFrame) (h : mix_multiple_frames cfg frames = .ok f) :
    f.sample_rate = cfg.sample_rate ∧ f.channels = cfg.channels ∧
    f.source = AudioStreamSource.System := by
  rw [mix_multiple_frames] at h
  split at h
  · cases h
  · simp only [Except.ok.injEq] at h
    subst h
    exact ⟨rfl, rfl, rfl⟩

theorem mix_next_chunk_stalls (cfg : MixerConfig) (st : MixerState)
    (hs : ∃ s ∈ cfg.enabled_sources, st.buffers s = []) :
    mix_next_chunk cfg st = .ok (none, st) := by
  obtain ⟨s, hmem, hempty⟩ := hs
  have hall : (cfg.enabled_sources.all fun s => !(st.buffers s).isEmpty) = false := by
    rw [List.all_eq_false]
    exact ⟨s, hmem, by simp [hempty]⟩
  simp [mix_next_chunk, hall]

theorem mix_next_chunk_emits (cfg : MixerConfig) (st : MixerState)
    (f : AudioFrame) (st' : MixerState)
    (h : mix_next_chunk cfg st = .ok (some f, st')) :
    (∀ s ∈ cfg.enabled_sources, st.buffers s ≠ []) ∧
    (∀ s ∈ cfg.enabled_sources, st'.buffers s = (st.buffers s).tail) ∧
    (∀ s ∉ cfg.enabled_sources, st'.buffers s = st.buffers s) ∧
    st'.frame_accumulator = st.frame_accumulator ∧
    f.sample_rate = cfg.sample_rate ∧ f.channels = cfg.channels ∧
    f.source = AudioStreamSource.System := by
  simp only [mix_next_chunk] at h
  split at h
  · simp at h
  · rename_i hready
    rw [Bool.not_eq_true', Bool.not_eq_false] at hready
    have hne : ∀ s ∈ cfg.enabled_sources, st.buffers s ≠ [] := by
      intro s hs
      have := List.all_eq_true.mp hready s hs
      simpa using this
    split at h
    · split at h
      · cases h
      · rename_i mixed hmix
        simp only [Except.ok.injEq, Prod.mk.injEq, Option.some.injEq] at h
        obtain ⟨hf, hst⟩ := h
        subst hf
        subst hst
        obtain ⟨h1, h2, h3⟩ := mix_multiple_frames_fields cfg _ mixed hmix
        refine ⟨hne, ?_, ?_, rfl, h1, h2, h3⟩
        · intro s hs
          simp [hs]
        · intro s hs
          simp [hs]
    · simp at h

theorem mix_next_chunk_acc (cfg : MixerConfig) (st : MixerState)
    (o : Option AudioFrame) (st' : MixerState)
    (h : mix_next_chunk cfg st = .ok (o, st')) :
    st'.frame_accumulator = st.frame_accumulator := by
  simp only [mix_next_chunk] at h
  split at h
  · simp only [Except.ok.injEq, Prod.mk.injEq] at h
    rw [← h.2]
  · split at h
    · split at h
      · cases h
      · simp only [Except.ok.injEq, Prod.mk.injEq] at h
        rw [← h.2]
    · simp only [Except.ok.injEq, Prod.mk.injEq] at h
      rw [← h.2]

/-! ## Claim theorems -/

/-- C1: for every enabled-source set and every mixer state,
`mix_next_chunk` emits a merged frame only if every enabled source's
ready queue is non-empty, and an emission pops exactly one frame (the
front) from each enabled source's queue while leaving other queues
untouched; if any enabled source's queue is empty, nothing is emitted
and the state is unchanged. -/
theorem mixer_emission_requires_all_sources (cfg : MixerConfig) (st : MixerState) :
    (∀ f st', mix_next_chunk cfg st = .ok (some f, st') →
       (∀ s ∈ cfg.enabled_sources, st.buffers s ≠ []) ∧
       (∀ s ∈ cfg.enabled_sources, st'.buffers s = (st.buffers s).tail) ∧
       (∀ s ∉ cfg.enabled_sources, st'.buffers s = st.buffers s)) ∧
    ((∃ s ∈ cfg.enabled_sources, st.buffers s = []) →
       mix_next_chunk cfg st = .ok (none, st)) := by
  constructor
  · intro f st' h
    obtain ⟨h1, h2, h3, _⟩ := mix_next_chunk_emits cfg st f st' h
    exact ⟨h1, h2, h3⟩
  · exact mix_next_chunk_stalls cfg st

/-- Witness for C1 at a state in which both enabled sources have one
ready frame, so the theorem's emission hypothesis holds by evaluation. -/
theorem mixer_emission_requires_all_sources_witness :
    (∀ s ∈ exCfg16k.enabled_sources, wReadyState.buffers s ≠ []) ∧
    (∀ s ∈ exCfg16k.enabled_sources,
      (mixChunkResult exCfg16k wReadyState).2.buffers s = (wReadyState.buffers s).tail) ∧
    (∀ s ∉ exCfg16k.enabled_sources,
      (mixChunkResult exCfg16k wReadyState).2.buffers s = wReadyState.buffers s) :=
  (mixer_emission_requires_all_sources exCfg16k wReadyState).1
    (frame16k [2, 4] .System) (mixChunkResult exCfg16k wReadyState).2 rfl

theorem mixFlush_fields (cfg : MixerConfig) :
    ∀ fuel st st' outs, mixFlush cfg fuel st = .ok (st', outs) →
      ∀ f ∈ outs, f.sample_rate = cfg.sample_rate ∧ f.channels = cfg.channels ∧
        f.source = AudioStreamSource.System := by
  intro fuel
  induction fuel with
  | zero =>
      intro st st' outs h
      simp only [mixFlush, Except.ok.injEq, Prod.mk.injEq] at h
      rw [← h.2]
      intro f hf
      cases hf
  | succ fuel ih =>
      intro st st' outs h
      rw [mixFlush] at h
      split at h
      · cases h
      · rename_i st1 hchunk
        simp only [Except.ok.injEq, Prod.mk.injEq] at h
        rw [← h.2]
        intro f hf
        cases hf
      · rename_i g st1 hchunk
        split at h
        · cases h
        · rename_i st2 outs2 hrest
          simp only [Except.ok.injEq, Prod.mk.injEq] at h
          obtain ⟨hst, houts⟩ := h
          rw [← houts]
          intro f hf
          rcases List.mem_cons.mp hf with hfg | hfm
          · subst hfg
            obtain ⟨_, _, _, _, h5, h6, h7⟩ := mix_next_chunk_emits cfg st f st1 hchunk
            exact ⟨h5, h6, h7⟩
          · exact ih st1 st2 outs2 hrest f hfm

theorem mixStep_fields (cfg : MixerConfig) (st : MixerState) (frame : AudioFrame)
    (st1 : MixerState) (o : Option AudioFrame)
    (h : mixStep cfg st frame = .ok (st1, o)) :
    ∀ f ∈ o.toList, f.sample_rate = cfg.sample_rate ∧ f.channels = cfg.channels ∧
      f.source = AudioStreamSource.System := by
  rw [mixStep] at h
  split at h
  · cases h
  · rename_i o' st' hchunk
    simp only [Except.ok.injEq, Prod.mk.injEq] at h
    obtain ⟨hst, ho⟩ := h
    subst ho
    intro f hf
    cases o' with
    | none => cases hf
    | some g =>
        rcases List.mem_singleton.mp hf with rfl
        obtain ⟨_, _, _, _, h5, h6, h7⟩ := mix_next_chunk_emits cfg _ f st' hchunk
        exact ⟨h5, h6, h7⟩

theorem mixLoop_fields (cfg : MixerConfig) :
    ∀ input st st' outs, mixLoop cfg st input = .ok (st', outs) →
      ∀ f ∈ outs, f.sample_rate = cfg.sample_rate ∧ f.channels = cfg.channels ∧
        f.source = AudioStreamSource.System := by
  intro input
  induction input with
  | nil =>
      intro st st' outs h
      simp only [mixLoop, Except.ok.injEq, Prod.mk.injEq] at h
      rw [← h.2]
      intro f hf
      cases hf
  | cons frame rest ih =>
      intro st st' outs h
      rw [mixLoop] at h
      split at h
      · cases h
      · rename_i st1 o hstep
        split at h
        · cases h
        · rename_i st2 outs2 hrest
          simp only [Except.ok.injEq, Prod.mk.injEq] at h
          rw [← h.2]
          intro f hf
          rcases List.mem_append.mp hf with hfo | hfm
          · exact mixStep_fields cfg st frame st1 o hstep f hfo
          · exact ih st1 st2 outs2 hrest f hfm

/-- C10: every frame emitted by a full `mix` run carries the mixer
configuration's sample rate and channel count and is tagged with source
`System`, regardless of the input frames' tags, rates or channel
counts. -/
theorem mix_output_frame_format (cfg : MixerConfig) (fuel : Nat)
    (input : List AudioFrame) (st' : MixerState) (outs : List AudioFrame)
    (h : mix cfg fuel input = .ok (st', outs)) :
    ∀ f ∈ outs, f.sample_rate = cfg.sample_rate ∧ f.channels = cfg.channels ∧
      f.source = AudioStreamSource.System := by
  rw [mix] at h
  split at h
  · cases h
  · rename_i st1 outs1 hloop
    split at h
    · cases h
    · rename_i st2 outs2 hflush
      simp only [Except.ok.injEq, Prod.mk.injEq] at h
      rw [← h.2]
      intro f hf
      rcases List.mem_append.mp hf with hf1 | hf2
      · exact mixLoop_fields cfg input MixerState.initial st1 outs1 hloop f hf1
      · exact mixFlush_fields cfg fuel st1 st2 outs2 hflush f hf2

/-- Witness for C10 on a concrete two-frame run that emits one mixed
frame. -/
theorem mix_output_frame_format_witness :
    wMixedFrame.sample_rate = wCfg.sample_rate ∧
    wMixedFrame.channels = wCfg.channels ∧
    wMixedFrame.source = AudioStreamSource.System :=
  mix_output_frame_format wCfg 0 wMixInput
    (mixResult wCfg 0 wMixInput).1 (mixResult wCfg 0 wMixInput).2 rfl
    wMixedFrame (by decide)

/-- C2: for every non-empty list of popped input frames,
`mix_multiple_frames` succeeds and its output has timestamp equal to the
minimum input timestamp, sample count equal to the maximum input sample
count, and each output sample at index `i` equal to
`clamp(sum of the inputs' samples at i, -32768, 32767)` with missing
samples contributing 0; in particular `[100,200,300] + [50,100,150]`
mixes to `[150,300,450]`, `[32767-100] + [200]` to `[32767]`, and
`[100,200] + [50,100,150,200]` to `[150,300,150,200]`. -/
theorem mix_multiple_frames_spec (cfg : MixerConfig) (frames : List AudioFrame)
    (h : frames ≠ []) :
    (∃ out, mix_multiple_frames cfg frames = .ok out ∧
      out.timestamp_ms ∈ frames.map (·.timestamp_ms) ∧
      (∀ f ∈ frames, out.timestamp_ms ≤ f.timestamp_ms) ∧
      out.samples.length ∈ frames.map (·.samples.length) ∧
      (∀ f ∈ frames, f.samples.length ≤ out.samples.length) ∧
      (∀ i, i < out.samples.length →
        out.samples.getD i 0
          = clampI16 ((frames.map fun f => f.samples.getD i 0).sum))) ∧
    mix_multiple_frames exCfg16k
        [frame16k [100, 200, 300] .System, frame16k [50, 100, 150] .Microphone]
      = .ok (frame16k [150, 300, 450] .System) ∧
    mix_multiple_frames exCfg16k
        [frame16k [32767 - 100] .System, frame16k [200] .Microphone]
      = .ok (frame16k [32767] .System) ∧
    mix_multiple_frames exCfg16k
        [frame16k [100, 200] .System, frame16k [50, 100, 150, 200] .Microphone]
      = .ok (frame16k [150, 300, 150, 200] .System) := by
  have hne : frames.isEmpty = false := by
    cases frames with
    | nil => exact absurd rfl h
    | cons a l => rfl
  refine ⟨⟨{ samples := ((List.range (maxOr0 (frames.map (·.samples.length)))).map
               (fun i => clampI16 (frames.foldl (fun sum f => sum + sampleAt f i) 0))),
             sample_rate := cfg.sample_rate,
             channels := cfg.channels,
             timestamp_ms := minOr0 (frames.map (·.timestamp_ms)),
             source := .System }, ?_, ?_, ?_, ?_, ?_, ?_⟩, by rfl, by rfl, by rfl⟩
  · simp [mix_multiple_frames, hne]
  · show minOr0 (frames.map (·.timestamp_ms)) ∈ _
    exact minOr0_mem _ (by simpa using h)
  · intro f hf
    exact minOr0_le _ _ (List.mem_map_of_mem _ hf)
  · show ((List.range (maxOr0 (frames.map (·.samples.length)))).map _).length ∈ _
    rw [List.length_map, List.length_range]
    exact maxOr0_mem _ (by simpa using h)
  · intro f hf
    show f.samples.length ≤ ((List.range _).map _).length
    rw [List.length_map, List.length_range]
    exact maxOr0_ge _ _ (List.mem_map_of_mem _ hf)
  · intro i hi
    rw [List.length_map, List.length_range] at hi
    show ((List.range _).map _).getD i 0 = _
    rw [List.getD_eq_getElem _ _ (by simpa using hi), List.getElem_map,
      List.getElem_range, foldl_add_sampleAt]
    simp [sampleAt]

/-- Witness for C2 at the first concrete example pair. -/
theorem mix_multiple_frames_spec_witness :
    (∃ out, mix_multiple_frames exCfg16k
        [frame16k [100, 200, 300] .System, frame16k [50, 100, 150] .Microphone]
          = .ok out ∧
      out.timestamp_ms ∈ ([frame16k [100, 200, 300] .System,
          frame16k [50, 100, 150] .Microphone].map (·.timestamp_ms)) ∧
      (∀ f ∈ [frame16k [100, 200, 300] .System,
          frame16k [50, 100, 150] .Microphone], out.timestamp_ms ≤ f.timestamp_ms) ∧
      out.samples.length ∈ ([frame16k [100, 200, 300] .System,
          frame16k [50, 100, 150] .Microphone].map (·.samples.length)) ∧
      (∀ f ∈ [frame16k [100, 200, 300] .System,
          frame16k [50, 100, 150] .Microphone],
        f.samples.length ≤ out.samples.length) ∧
      (∀ i, i < out.samples.length →
        out.samples.getD i 0
          = clampI16 (([frame16k [100, 200, 300] .System,
              frame16k [50, 100, 150] .Microphone].map
                fun f => f.samples.getD i 0).sum))) ∧
    mix_multiple_frames exCfg16k
        [frame16k [100, 200, 300] .System, frame16k [50, 100, 150] .Microphone]
      = .ok (frame16k [150, 300, 450] .System) ∧
    mix_multiple_frames exCfg16k
        [frame16k [32767 - 100] .System, frame16k [200] .Microphone]
      = .ok (frame16k [32767] .System) ∧
    mix_multiple_frames exCfg16k
        [frame16k [100, 200] .System, frame16k [50, 100, 150, 200] .Microphone]
      = .ok (frame16k [150, 300, 150, 200] .System) :=
  mix_multiple_frames_spec exCfg16k _ (List.cons_ne_nil _ _)

theorem getD_append_length {α : Type} (l1 l2 : List α) (e d : α) :
    (l1 ++ e :: l2).getD l1.length d = e := by
  induction l1 with
  | nil => rfl
  | cons x xs ih => simpa using ih

theorem getD_append_of_length_eq {α : Type} (l1 l2 : List α) (e d : α) (n : Nat)
    (h : n = l1.length) : (l1 ++ e :: l2).getD n d = e := by
  subst h
  exact getD_append_length l1 l2 e d

theorem audioTaskLoop_length (rate ch : Nat) :
    ∀ (input : List AudioFrame) (seq : Nat),
      (audioTaskLoop rate ch seq input).length = input.length := by
  intro input
  induction input with
  | nil => intro seq; rfl
  | cons f rest ih => intro seq; simp [audioTaskLoop, ih]

theorem audioTaskLoop_getD (rate ch : Nat) :
    ∀ (input : List AudioFrame) (seq i : Nat), i < input.length →
      ((audioTaskLoop rate ch seq input).getD i defaultEnvelope).sequence = seq + i ∧
      ((audioTaskLoop rate ch seq input).getD i defaultEnvelope).final_frame = false := by
  intro input
  induction input with
  | nil => intro seq i hi; cases hi
  | cons f rest ih =>
      intro seq i hi
      cases i with
      | zero => exact ⟨rfl, rfl⟩
      | succ i =>
          have hr := ih (seq + 1) i (by simpa using Nat.lt_of_succ_lt_succ hi)
          have hstep : (audioTaskLoop rate ch seq (f :: rest)).getD (i + 1) defaultEnvelope
              = (audioTaskLoop rate ch (seq + 1) rest).getD i defaultEnvelope := by
            simp [audioTaskLoop]
          constructor
          · rw [hstep, hr.1]; omega
          · rw [hstep]; exact hr.2

/-- C4: over any finite capture stream, the audio task publishes
envelopes whose sequence numbers are exactly `0, 1, 2, ...` in publish
order (strictly increasing, gap-free), all non-final; and at stream end
exactly one additional final envelope is published, carrying an empty
payload, the final marker, and the next sequence number. -/
theorem audio_task_sequencing (rate ch : Nat) (input : List AudioFrame) :
    (audioTask rate ch 0 input).length = input.length + 1 ∧
    (∀ i, i < input.length →
      ((audioTask rate ch 0 input).getD i defaultEnvelope).sequence = i ∧
      ((audioTask rate ch 0 input).getD i defaultEnvelope).final_frame = false) ∧
    ((audioTask rate ch 0 input).getD input.length defaultEnvelope).sequence
        = input.length ∧
    ((audioTask rate ch 0 input).getD input.length defaultEnvelope).final_frame
        = true ∧
    ((audioTask rate ch 0 input).getD input.length defaultEnvelope).pcm = [] := by
  have hlast : (audioTask rate ch 0 input).getD input.length defaultEnvelope
      = { pcm := [], sample_rate := rate, channels := ch,
          sequence := 0 + input.length, final_frame := true } := by
    unfold audioTask
    exact getD_append_of_length_eq _ _ _ _ _ (audioTaskLoop_length rate ch input 0).symm
  refine ⟨?_, ?_, ?_, ?_, ?_⟩
  · unfold audioTask
    simp [audioTaskLoop_length]
  · intro i hi
    have hlt : i < (audioTaskLoop rate ch 0 input).length := by
      rw [audioTaskLoop_length]; exact hi
    have happ : (audioTask rate ch 0 input).getD i defaultEnvelope
        = (audioTaskLoop rate ch 0 input).getD i defaultEnvelope := by
      unfold audioTask
      exact List.getD_append _ _ _ _ hlt
    rw [happ]
    have := audioTaskLoop_getD rate ch input 0 i hi
    simpa using this
  · rw [hlast]; simp
  · rw [hlast]
  · rw [hlast]

/-- Witness for C4 on a one-frame stream, at index 0. -/
theorem audio_task_sequencing_witness :
    ((audioTask 16000 1 0 [frame16k [1] .System]).getD 0 defaultEnvelope).sequence = 0 ∧
    ((audioTask 16000 1 0 [frame16k [1] .System]).getD 0 defaultEnvelope).final_frame
      = false :=
  (audio_task_sequencing 16000 1 [frame16k [1] .System]).2.1 0 (by decide)

theorem monoPairs_length : ∀ l : List Int, (monoPairs l).length = l.length / 2 := by
  intro l
  induction l using monoPairs.induct with
  | case1 => rfl
  | case2 a => simp [monoPairs]
  | case3 a b rest ih =>
      show (monoPairs (a :: b :: rest)).length = (a :: b :: rest).length / 2
      rw [monoPairs]
      simp only [List.length_cons, ih]
      omega

theorem monoPairs_getD : ∀ (l : List Int) (i : Nat), i < l.length / 2 →
    (monoPairs l).getD i 0 = clampI16 (l.getD (2 * i) 0 + l.getD (2 * i + 1) 0) := by
  intro l
  induction l using monoPairs.induct with
  | case1 =>
      intro i hi
      cases hi
  | case2 a =>
      intro i hi
      have hz : ([a] : List Int).length / 2 = 0 := by norm_num
      rw [hz] at hi
      cases hi
  | case3 a b rest ih =>
      intro i hi
      cases i with
      | zero => rfl
      | succ i =>
          have hi' : i < rest.length / 2 := by
            simp only [List.length_cons] at hi
            omega
          have h2 : 2 * (i + 1) = 2 * i + 1 + 1 := by ring
          rw [monoPairs]
          simp only [List.getD_cons_succ, h2]
          exact ih i hi'

/-- C7: `stereo_to_mono` maps an already-mono frame to itself; a
two-channel frame becomes mono with half as many samples, each output
sample the clamped (not averaged) sum of the corresponding interleaved
`[L, R]` pair; any other channel count passes through unchanged. -/
theorem stereo_to_mono_spec (frame : AudioFrame) :
    (frame.channels = 1 → stereo_to_mono frame = frame) ∧
    (frame.channels = 2 →
      (stereo_to_mono frame).channels = 1 ∧
      (stereo_to_mono frame).samples.length = frame.samples.length / 2 ∧
      (∀ i, i < frame.samples.length / 2 →
        (stereo_to_mono frame).samples.getD i 0
          = clampI16 (frame.samples.getD (2 * i) 0
              + frame.samples.getD (2 * i + 1) 0)) ∧
      (stereo_to_mono frame).sample_rate = frame.sample_rate ∧
      (stereo_to_mono frame).timestamp_ms = frame.timestamp_ms ∧
      (stereo_to_mono frame).source = frame.source) ∧
    (frame.channels ≠ 1 → frame.channels ≠ 2 → stereo_to_mono frame = frame) := by
  refine ⟨?_, ?_, ?_⟩
  · intro h1
    simp [stereo_to_mono, h1]
  · intro h2
    have hsm : stereo_to_mono frame
        = { frame with samples := monoPairs frame.samples, channels := 1 } := by
      simp [stereo_to_mono, h2]
    rw [hsm]
    exact ⟨rfl, monoPairs_length frame.samples,
      fun i hi => monoPairs_getD frame.samples i hi, rfl, rfl, rfl⟩
  · intro h1 h2
    simp [stereo_to_mono, h1, h2]

/-- Witness for C7 at a concrete stereo frame. -/
theorem stereo_to_mono_spec_witness :
    (stereo_to_mono c7Frame).channels = 1 ∧
    (stereo_to_mono c7Frame).samples.length = c7Frame.samples.length / 2 ∧
    (∀ i, i < c7Frame.samples.length / 2 →
      (stereo_to_mono c7Frame).samples.getD i 0
        = clampI16 (c7Frame.samples.getD (2 * i) 0
            + c7Frame.samples.getD (2 * i + 1) 0)) ∧
    (stereo_to_mono c7Frame).sample_rate = c7Frame.sample_rate ∧
    (stereo_to_mono c7Frame).timestamp_ms = c7Frame.timestamp_ms ∧
    (stereo_to_mono c7Frame).source = c7Frame.source :=
  (stereo_to_mono_spec c7Frame).2.1 rfl

/-- C8 counterexample: on the very session instance the claim describes,
`start(); stop()` leaves the session not Recording, yet one further
`start()` returns it to Recording — `stop` is not terminal for the
instance, because `RecordingSession::start` only checks the
`is_recording` flag that `stop` reset. -/
theorem session_stop_not_terminal :
    runSessionOps false [SessionOp.start, SessionOp.stop] = false ∧
    runSessionOps false [SessionOp.start, SessionOp.stop, SessionOp.start] = true :=
  ⟨rfl, rfl⟩

/-- C8 amended: the per-instance lifecycle is a two-state toggle, not a
three-state machine with a terminal `Stopped`: `start()` always leaves
the instance Recording and `stop()` always leaves it not Recording, so
after any call sequence the state is determined by the last call.
(Terminal stopping exists only one level up: the HTTP handler removes
the session from the registry on stop.) -/
theorem session_lifecycle_toggle :
    (∀ b, applySessionOp b SessionOp.start = true) ∧
    (∀ b, applySessionOp b SessionOp.stop = false) ∧
    (∀ (b : Bool) (ops : List SessionOp),
      runSessionOps b (ops ++ [SessionOp.start]) = true ∧
      runSessionOps b (ops ++ [SessionOp.stop]) = false) := by
  refine ⟨fun b => by cases b <;> rfl, fun b => by cases b <;> rfl, ?_⟩
  intro b ops
  unfold runSessionOps
  rw [List.foldl_append, List.foldl_append]
  constructor
  · show applySessionOp (List.foldl applySessionOp b ops) SessionOp.start = true
    generalize List.foldl applySessionOp b ops = c
    cases c <;> rfl
  · show applySessionOp (List.foldl applySessionOp b ops) SessionOp.stop = false
    generalize List.foldl applySessionOp b ops = c
    cases c <;> rfl

theorem should_start_update (cfg : ChunkConfig) (st : RecorderState)
    (frame : AudioFrame) (v : Nat) :
    should_start_new_chunk cfg { st with meeting_start_ms := v } frame
      = should_start_new_chunk cfg st frame := rfl

theorem recordStepCore_rotate (cfg : ChunkConfig) (st : RecorderState)
    (metas : List ChunkMetadata) (frame : AudioFrame)
    (h : should_start_new_chunk cfg st frame = true) :
    ∃ c0, (recordStepCore cfg st metas frame).1.current_chunk = some c0 ∧
      c0.start_ms = frame.timestamp_ms ∧
      c0.chunk_index = st.chunk_index ∧
      (recordStepCore cfg st metas frame).1.chunk_index = st.chunk_index + 1 ∧
      (recordStepCore cfg st metas frame).2 = metas ++ st.current_chunk.toList := by
  have hrot : recordStepCore cfg st metas frame
      = ({ current_chunk := some (writeFrameMeta (freshChunk st frame) frame),
           chunk_index := st.chunk_index + 1,
           meeting_start_ms := st.meeting_start_ms },
         match st.current_chunk with
         | some c => metas ++ [c]
         | none => metas) := by
    simp only [recordStepCore, h, if_true]
    rfl
  refine ⟨writeFrameMeta (freshChunk st frame) frame, ?_, rfl, rfl, ?_, ?_⟩
  · rw [hrot]
  · rw [hrot]
  · rw [hrot]
    cases st.current_chunk <;> simp

theorem recordStepCore_no_rotate (cfg : ChunkConfig) (st : RecorderState)
    (metas : List ChunkMetadata) (frame : AudioFrame)
    (h : should_start_new_chunk cfg st frame = false) :
    (recordStepCore cfg st metas frame).1.chunk_index = st.chunk_index ∧
    (recordStepCore cfg st metas frame).2 = metas ∧
    ∀ c, st.current_chunk = some c →
      (recordStepCore cfg st metas frame).1.current_chunk
        = some (writeFrameMeta c frame) := by
  have hsome : st.current_chunk = none ∨ ∃ c, st.current_chunk = some c := by
    cases st.current_chunk with
    | none => exact Or.inl rfl
    | some c => exact Or.inr ⟨c, rfl⟩
  rcases hsome with hc | ⟨c, hc⟩
  · rw [should_start_new_chunk, hc] at h
    cases h
  · have hnr : recordStepCore cfg st metas frame
        = ({ st with current_chunk := some (writeFrameMeta c frame) }, metas) := by
      simp only [recordStepCore, h, Bool.false_eq_true, if_false, hc]
    rw [hnr]
    exact ⟨rfl, rfl, fun c' hc' => by rw [hc] at hc'; cases hc'; rfl⟩

set_option maxRecDepth 100000 in
set_option maxHeartbeats 1000000 in
/-- C3: the chunked recorder opens a new chunk exactly when no chunk is
open or `frame.timestamp_ms - open_chunk.start_ms ≥ chunk_duration_ms`;
on rotation the finalized chunk's metadata is appended to the result
list and the new chunk starts at the incoming frame's timestamp; without
rotation nothing is finalized and the open chunk keeps its start (it is
merely extended by the frame). In the concrete 50-frame scenario (1600
samples, 100 ms spacing, 16 kHz, 2 s chunks) exactly 3 chunks result,
starting at 0, 2000 and 4000 ms, the final one (finalized
unconditionally at stream end) ending at 4900 ms. -/
theorem chunk_rotation_spec :
    (∀ (cfg : ChunkConfig) (st : RecorderState) (frame : AudioFrame),
      should_start_new_chunk cfg st frame = true ↔
        (st.current_chunk = none ∨
          ∃ c, st.current_chunk = some c ∧
            cfg.chunk_duration_secs * 1000 ≤ frame.timestamp_ms - c.start_ms)) ∧
    (∀ (cfg : ChunkConfig) (st : RecorderState) (metas : List ChunkMetadata)
        (frame : AudioFrame),
      (should_start_new_chunk cfg st frame = true →
        ∃ c0, (recordStep cfg (st, metas) frame).1.current_chunk = some c0 ∧
          c0.start_ms = frame.timestamp_ms ∧
          c0.chunk_index = st.chunk_index ∧
          (recordStep cfg (st, metas) frame).1.chunk_index = st.chunk_index + 1 ∧
          (recordStep cfg (st, metas) frame).2 = metas ++ st.current_chunk.toList) ∧
      (should_start_new_chunk cfg st frame = false →
        (recordStep cfg (st, metas) frame).1.chunk_index = st.chunk_index ∧
        (recordStep cfg (st, metas) frame).2 = metas ∧
        ∀ c, st.current_chunk = some c →
          (recordStep cfg (st, metas) frame).1.current_chunk
            = some (writeFrameMeta c frame))) ∧
    ((record c3Cfg c3Frames).map (fun c => (c.chunk_index, c.start_ms))
        = [(0, 0), (1, 2000), (2, 4000)] ∧
      (record c3Cfg c3Frames).map (·.end_ms) = [1900, 3900, 4900]) := by
  refine ⟨?_, ?_, by decide, by decide⟩
  · intro cfg st frame
    cases hc : st.current_chunk with
    | none => simp [should_start_new_chunk, hc]
    | some c => simp [should_start_new_chunk, hc]
  · intro cfg st metas frame
    by_cases hms : st.meeting_start_ms = 0
    · have hstep : ∀ m, recordStep cfg (st, m) frame
          = recordStepCore cfg { st with meeting_start_ms := frame.timestamp_ms } m frame := by
        intro m
        simp [recordStep, hms]
      constructor
      · intro h
        rw [hstep]
        exact recordStepCore_rotate cfg _ metas frame h
      · intro h
        rw [hstep]
        exact recordStepCore_no_rotate cfg _ metas frame h
    · have hstep : ∀ m, recordStep cfg (st, m) frame = recordStepCore cfg st m frame := by
        intro m
        simp [recordStep, hms]
      constructor
      · intro h
        rw [hstep]
        exact recordStepCore_rotate cfg st metas frame h
      · intro h
        rw [hstep]
        exact recordStepCore_no_rotate cfg st metas frame h

theorem cutFramesAux_spec (target : Nat) (ht : 0 < target) :
    ∀ (fuel : Nat) (acc : List Int), acc.length ≤ fuel →
      (∀ c ∈ (cutFramesAux target fuel acc).1, c.length = target) ∧
      (cutFramesAux target fuel acc).1.flatten
          ++ (cutFramesAux target fuel acc).2 = acc ∧
      (cutFramesAux target fuel acc).2.length < target := by
  intro fuel
  induction fuel with
  | zero =>
      intro acc hle
      have hacc : acc = [] := List.length_eq_zero.mp (Nat.le_zero.mp hle)
      subst hacc
      exact ⟨fun c hc => absurd hc (List.not_mem_nil c), rfl, ht⟩
  | succ fuel ih =>
      intro acc hle
      rw [cutFramesAux]
      split
      · rename_i hcond
        have hdrop : (acc.drop target).length ≤ fuel := by
          rw [List.length_drop]
          omega
        obtain ⟨hu, hf, hr⟩ := ih (acc.drop target) hdrop
        refine ⟨?_, ?_, hr⟩
        · intro c hc
          rcases List.mem_cons.mp hc with rfl | hc'
          · rw [List.length_take]
            omega
          · exact hu c hc'
        · show (acc.take target ++ (cutFramesAux target fuel (acc.drop target)).1.flatten)
              ++ _ = acc
          rw [List.append_assoc, hf, List.take_append_drop]
      · rename_i hcond
        have : acc.length < target := by
          rcases Nat.lt_or_ge acc.length target with h | h
          · exact h
          · exact absurd ⟨ht, h⟩ hcond
        exact ⟨fun c hc => absurd hc (List.not_mem_nil c), rfl, this⟩

theorem cutFrames_spec (target : Nat) (acc : List Int) (ht : 0 < target) :
    (∀ c ∈ (cutFrames target acc).1, c.length = target) ∧
    (cutFrames target acc).1.flatten ++ (cutFrames target acc).2 = acc ∧
    (cutFrames target acc).2.length < target :=
  cutFramesAux_spec target ht acc.length acc (Nat.le_refl _)

theorem flatten_length_uniform (t : Nat) :
    ∀ chunks : List (List Int), (∀ c ∈ chunks, c.length = t) →
      chunks.flatten.length = t * chunks.length := by
  intro chunks
  induction chunks with
  | nil => intro _; rfl
  | cons c cs ih =>
      intro hu
      have hc : c.length = t := hu c (List.mem_cons_self _ _)
      have hcs : ∀ d ∈ cs, d.length = t := fun d hd => hu d (List.mem_cons_of_mem _ hd)
      simp only [List.flatten_cons, List.length_append, List.length_cons, ih hcs, hc]
      ring

theorem cutFrames_rest_mod (target : Nat) (acc : List Int) (ht : 0 < target) :
    (cutFrames target acc).2.length = acc.length % target := by
  obtain ⟨hu, hf, hr⟩ := cutFrames_spec target acc ht
  have h0 : ((cutFrames target acc).1.flatten ++ (cutFrames target acc).2).length
      = acc.length := by rw [hf]
  rw [List.length_append, flatten_length_uniform target _ hu] at h0
  rw [← h0, Nat.mul_add_mod, Nat.mod_eq_of_lt hr]

theorem buffer_frame_accumulate_spec (cfg : MixerConfig) (st : MixerState)
    (frame : AudioFrame)
    (h1 : frame.source ∈ cfg.enabled_sources)
    (h2 : frame.sample_rate = cfg.sample_rate)
    (h3 : frame.channels = cfg.channels)
    (ht : 0 < targetSize cfg.sample_rate) :
    ∃ pushed : List AudioFrame,
      (buffer_frame_accumulate cfg st frame).buffers frame.source
          = st.buffers frame.source ++ pushed ∧
      (∀ f ∈ pushed, f.samples.length = targetSize cfg.sample_rate) ∧
      (∀ f ∈ pushed, f.timestamp_ms = frame.timestamp_ms) ∧
      ((pushed.map (·.samples)).flatten
          ++ (buffer_frame_accumulate cfg st frame).frame_accumulator frame.source
        = st.frame_accumulator frame.source ++ frame.samples) ∧
      ((buffer_frame_accumulate cfg st frame).frame_accumulator frame.source).length
          < targetSize cfg.sample_rate ∧
      ((buffer_frame_accumulate cfg st frame).frame_accumulator frame.source).length
          = (st.frame_accumulator frame.source).length + frame.samples.length
              - targetSize cfg.sample_rate
                * ((cutFrames (targetSize cfg.sample_rate)
                    (st.frame_accumulator frame.source ++ frame.samples)).1).length ∧
      ((buffer_frame_accumulate cfg st frame).frame_accumulator frame.source).length
          = ((st.frame_accumulator frame.source).length + frame.samples.length)
              % targetSize cfg.sample_rate ∧
      (∀ s, s ≠ frame.source →
        (buffer_frame_accumulate cfg st frame).buffers s = st.buffers s ∧
        (buffer_frame_accumulate cfg st frame).frame_accumulator s
          = st.frame_accumulator s) ∧
      (buffer_frame_accumulate cfg st frame).current_position_ms
        = st.current_position_ms := by
  set t := targetSize cfg.sample_rate with hT
  set acc := st.frame_accumulator frame.source ++ frame.samples with hA
  have hbody : buffer_frame_accumulate cfg st frame
      = { st with
          frame_accumulator := fun s =>
            if s = frame.source then (cutFrames t acc).2 else st.frame_accumulator s,
          buffers := fun s =>
            if s = frame.source then
              st.buffers s ++ ((cutFrames t acc).1.map fun smp =>
                { samples := smp, sample_rate := frame.sample_rate,
                  channels := frame.channels, timestamp_ms := frame.timestamp_ms,
                  source := frame.source })
            else st.buffers s } := by
    rw [buffer_frame_accumulate]
    rw [if_neg (by simp [h1]), if_neg (by simp [h2]), if_neg (by simp [h3])]
  obtain ⟨hu, hf, hr⟩ := cutFrames_spec t acc ht
  refine ⟨(cutFrames t acc).1.map fun smp =>
      { samples := smp, sample_rate := frame.sample_rate,
        channels := frame.channels, timestamp_ms := frame.timestamp_ms,
        source := frame.source }, ?_, ?_, ?_, ?_, ?_, ?_, ?_, ?_, ?_⟩
  · rw [hbody]
    simp
  · intro f hf'
    obtain ⟨smp, hsmp, rfl⟩ := List.mem_map.mp hf'
    exact hu smp hsmp
  · intro f hf'
    obtain ⟨smp, hsmp, rfl⟩ := List.mem_map.mp hf'
    rfl
  · rw [hbody]
    simp only [List.map_map]
    have hcomp : ((fun f : AudioFrame => f.samples) ∘ fun smp =>
        ({ samples := smp, sample_rate := frame.sample_rate,
           channels := frame.channels, timestamp_ms := frame.timestamp_ms,
           source := frame.source } : AudioFrame)) = id := by
      funext smp
      rfl
    rw [hcomp, List.map_id]
    simpa using hf
  · rw [hbody]
    simpa using hr
  · rw [hbody]
    have hflat := flatten_length_uniform t (cutFrames t acc).1 hu
    have hlen : ((cutFrames t acc).1.flatten ++ (cutFrames t acc).2).length
        = acc.length := by rw [hf]
    rw [List.length_append, hflat] at hlen
    have hacclen : acc.length
        = (st.frame_accumulator frame.source).length + frame.samples.length := by
      rw [hA, List.length_append]
    simp only [eq_self_iff_true, if_true]
    omega
  · rw [hbody]
    have hmod := cutFrames_rest_mod t acc ht
    have hacclen : acc.length
        = (st.frame_accumulator frame.source).length + frame.samples.length := by
      rw [hA, List.length_append]
    simp only [eq_self_iff_true, if_true]
    rw [hmod, hacclen]
  · intro s hs
    rw [hbody]
    constructor
    · simp [hs]
    · simp [hs]
  · rw [hbody]

theorem buffer_frame_rejected (cfg : MixerConfig) (st : MixerState)
    (frame : AudioFrame)
    (h : ¬ (frame.source ∈ cfg.enabled_sources ∧ frame.sample_rate = cfg.sample_rate
        ∧ frame.channels = cfg.channels)) :
    buffer_frame cfg st frame = st := by
  rw [buffer_frame]
  by_cases h1 : frame.source ∈ cfg.enabled_sources
  · by_cases h2 : frame.sample_rate = cfg.sample_rate
    · by_cases h3 : frame.channels = cfg.channels
      · exact absurd ⟨h1, h2, h3⟩ h
      · rw [if_neg (by simp [h1]), if_neg (by simp [h2]), if_pos h3]
    · rw [if_neg (by simp [h1]), if_pos h2]
  · rw [if_pos h1]

theorem buffer_frame_accepted (cfg : MixerConfig) (st : MixerState)
    (frame : AudioFrame)
    (h1 : frame.source ∈ cfg.enabled_sources)
    (h2 : frame.sample_rate = cfg.sample_rate)
    (h3 : frame.channels = cfg.channels) :
    buffer_frame cfg st frame
      = cleanup_old_frames cfg (buffer_frame_accumulate cfg st frame) := by
  rw [buffer_frame]
  rw [if_neg (by simp [h1]), if_neg (by simp [h2]), if_neg (by simp [h3])]

theorem dropOldFront_stale_free (cutoff : Nat) :
    ∀ l : List AudioFrame,
      List.Pairwise (fun a b => a.timestamp_ms ≤ b.timestamp_ms) l →
      ∀ f ∈ dropOldFront cutoff l, ¬ f.timestamp_ms < cutoff := by
  intro l
  induction l with
  | nil => intro _ f hf; cases hf
  | cons g rest ih =>
      intro hp f hf
      rw [dropOldFront] at hf
      by_cases hg : g.timestamp_ms < cutoff
      · rw [if_pos hg] at hf
        exact ih (List.Pairwise.of_cons hp) f hf
      · rw [if_neg hg] at hf
        rcases List.mem_cons.mp hf with rfl | hf'
        · exact hg
        · intro hlt
          have hgf := (List.pairwise_cons.mp hp).1 f hf'
          omega

/-- Witness for C3: feeding a frame to the fresh recorder (no open
chunk) opens chunk 0 at the frame's timestamp. -/
theorem chunk_rotation_spec_witness :
    ∃ c0, (recordStep c3Cfg (RecorderState.initial, [])
        (frame16k [1, 2] .System)).1.current_chunk = some c0 ∧
      c0.start_ms = (frame16k [1, 2] .System).timestamp_ms ∧
      c0.chunk_index = RecorderState.initial.chunk_index ∧
      (recordStep c3Cfg (RecorderState.initial, [])
          (frame16k [1, 2] .System)).1.chunk_index
        = RecorderState.initial.chunk_index + 1 ∧
      (recordStep c3Cfg (RecorderState.initial, []) (frame16k [1, 2] .System)).2
        = [] ++ RecorderState.initial.current_chunk.toList :=
  (chunk_rotation_spec.2.1 c3Cfg RecorderState.initial []
    (frame16k [1, 2] .System)).1 rfl

set_option maxRecDepth 100000 in
/-- C5 counterexample: at sample rate 16030, the code's standard frame
size is `(16030 as f64 * 0.02) as usize = 320` (truncation), while the
claim's `round(16030 * 0.02) = 321`; buffering a 321-sample frame into a
fresh mixer cuts one 320-sample frame, not a 321-sample one, refuting
the claim as stated. -/
theorem mixer_standard_unit_counterexample :
    specRoundTarget 16030 = 321 ∧
    ((buffer_frame_accumulate c5Cfg MixerState.initial c5Frame).buffers
        AudioStreamSource.System).map (fun f => f.samples.length) = [320] ∧
    ¬ (∀ f ∈ (buffer_frame_accumulate c5Cfg MixerState.initial c5Frame).buffers
          AudioStreamSource.System,
        f.samples.length = specRoundTarget 16030) :=
  ⟨rfl, by decide, by decide⟩

/-- C5 amended: for every configured sample rate whose standard unit
`⌊sample_rate * 0.02⌋` (truncation, not rounding) is positive, whenever
a source's accumulator holds at least that many samples, full frames of
exactly that many samples are cut from the front of the accumulator and
appended to the source's ready queue until fewer than that many samples
remain (the remainder's length is the accumulated total mod the unit). -/
theorem mixer_standard_unit_cut (cfg : MixerConfig) (st : MixerState)
    (frame : AudioFrame)
    (h1 : frame.source ∈ cfg.enabled_sources)
    (h2 : frame.sample_rate = cfg.sample_rate)
    (h3 : frame.channels = cfg.channels)
    (ht : 0 < targetSize cfg.sample_rate) :
    ∃ pushed : List AudioFrame,
      (buffer_frame_accumulate cfg st frame).buffers frame.source
          = st.buffers frame.source ++ pushed ∧
      (∀ f ∈ pushed, f.samples.length = targetSize cfg.sample_rate) ∧
      ((pushed.map (·.samples)).flatten
          ++ (buffer_frame_accumulate cfg st frame).frame_accumulator frame.source
        = st.frame_accumulator frame.source ++ frame.samples) ∧
      ((buffer_frame_accumulate cfg st frame).frame_accumulator frame.source).length
          < targetSize cfg.sample_rate ∧
      ((buffer_frame_accumulate cfg st frame).frame_accumulator frame.source).length
          = ((st.frame_accumulator frame.source).length + frame.samples.length)
              % targetSize cfg.sample_rate := by
  obtain ⟨pushed, hb, hlen, hts, hflat, hlt, hdiff, hmod, hother, hpos⟩ :=
    buffer_frame_accumulate_spec cfg st frame h1 h2 h3 ht
  exact ⟨pushed, hb, hlen, hflat, hlt, hmod⟩

/-- Witness for C5 (amended) at rate 16030 with a 321-sample frame. -/
theorem mixer_standard_unit_cut_witness :
    ∃ pushed : List AudioFrame,
      (buffer_frame_accumulate c5Cfg MixerState.initial c5Frame).buffers
          c5Frame.source
        = MixerState.initial.buffers c5Frame.source ++ pushed ∧
      (∀ f ∈ pushed, f.samples.length = targetSize c5Cfg.sample_rate) ∧
      ((pushed.map (·.samples)).flatten
          ++ (buffer_frame_accumulate c5Cfg MixerState.initial
              c5Frame).frame_accumulator c5Frame.source
        = MixerState.initial.frame_accumulator c5Frame.source ++ c5Frame.samples) ∧
      ((buffer_frame_accumulate c5Cfg MixerState.initial
          c5Frame).frame_accumulator c5Frame.source).length
        < targetSize c5Cfg.sample_rate ∧
      ((buffer_frame_accumulate c5Cfg MixerState.initial
          c5Frame).frame_accumulator c5Frame.source).length
        = ((MixerState.initial.frame_accumulator c5Frame.source).length
            + c5Frame.samples.length) % targetSize c5Cfg.sample_rate :=
  mixer_standard_unit_cut c5Cfg MixerState.initial c5Frame (by decide) rfl rfl
    (by decide)

/-- C6 counterexample: a mixer state with sorted queues can hold a stale
frame; a frame whose sample rate mismatches is rejected by
`buffer_frame` before `cleanup_old_frames` runs, so after buffering that
frame the stale frame is still in the System queue — the claim's "after
buffering any frame" fails for rejected frames. -/
theorem mixer_staleness_counterexample :
    (∀ s, List.Pairwise (fun a b => a.timestamp_ms ≤ b.timestamp_ms)
        (c6StaleState.buffers s)) ∧
    buffer_frame exCfg16k c6StaleState c6BadFrame = c6StaleState ∧
    ∃ f ∈ (buffer_frame exCfg16k c6StaleState c6BadFrame).buffers
        AudioStreamSource.System,
      f.timestamp_ms
        < c6StaleState.current_position_ms - exCfg16k.max_buffer_delay_ms := by
  have hrej : buffer_frame exCfg16k c6StaleState c6BadFrame = c6StaleState := rfl
  refine ⟨?_, hrej, ?_⟩
  · intro s
    cases s <;> simp [c6StaleState]
  · rw [hrej]
    refine ⟨c6StaleFrame, ?_, ?_⟩
    · simp [c6StaleState]
    · decide

/-- C6 amended: for every mixer state with per-source non-decreasing
queue timestamps, after buffering any **accepted** frame (enabled
source, matching rate and channels, positive standard unit) whose
timestamp is at least every queued timestamp of its source, no queue
holds a frame older than `current_position_ms - max_buffer_delay_ms`. -/
theorem mixer_staleness_bound (cfg : MixerConfig) (st : MixerState)
    (frame : AudioFrame)
    (hsort : ∀ s, List.Pairwise (fun a b => a.timestamp_ms ≤ b.timestamp_ms)
        (st.buffers s))
    (hmono : ∀ f ∈ st.buffers frame.source, f.timestamp_ms ≤ frame.timestamp_ms)
    (hempty : ∀ s ∉ cfg.enabled_sources, st.buffers s = [])
    (h1 : frame.source ∈ cfg.enabled_sources)
    (h2 : frame.sample_rate = cfg.sample_rate)
    (h3 : frame.channels = cfg.channels)
    (ht : 0 < targetSize cfg.sample_rate) :
    ∀ s, ∀ f ∈ (buffer_frame cfg st frame).buffers s,
      ¬ f.timestamp_ms < st.current_position_ms - cfg.max_buffer_delay_ms := by
  rw [buffer_frame_accepted cfg st frame h1 h2 h3]
  intro s f hf
  obtain ⟨pushed, hb, hlen, hts, hflat, hlt, hdiff, hmod, hother, hpos⟩ :=
    buffer_frame_accumulate_spec cfg st frame h1 h2 h3 ht
  have hcl : (cleanup_old_frames cfg (buffer_frame_accumulate cfg st frame)).buffers s
      = if s ∈ cfg.enabled_sources
        then dropOldFront
          ((buffer_frame_accumulate cfg st frame).current_position_ms
            - cfg.max_buffer_delay_ms)
          ((buffer_frame_accumulate cfg st frame).buffers s)
        else (buffer_frame_accumulate cfg st frame).buffers s := rfl
  rw [hcl] at hf
  by_cases hs : s ∈ cfg.enabled_sources
  · rw [if_pos hs] at hf
    have hsorted : List.Pairwise (fun a b => a.timestamp_ms ≤ b.timestamp_ms)
        ((buffer_frame_accumulate cfg st frame).buffers s) := by
      by_cases hsf : s = frame.source
      · subst hsf
        rw [hb, List.pairwise_append]
        refine ⟨hsort _, ?_, ?_⟩
        · exact List.pairwise_of_forall_mem_list fun a ha b hb' => by
            simp [hts a ha, hts b hb']
        · intro a ha b hb'
          rw [hts b hb']
          exact hmono a ha
      · rw [(hother s hsf).1]
        exact hsort s
    have hstale := dropOldFront_stale_free _ _ hsorted f hf
    rwa [hpos] at hstale
  · rw [if_neg hs] at hf
    have hsf : s ≠ frame.source := fun e => hs (e ▸ h1)
    rw [(hother s hsf).1, hempty s hs] at hf
    cases hf

/-- Witness for C6 (amended) buffering an accepted small frame into a
state with one sorted ready frame per source. -/
theorem mixer_staleness_bound_witness :
    ¬ (frame16k [1, 2] AudioStreamSource.System).timestamp_ms
        < wReadyState.current_position_ms - exCfg16k.max_buffer_delay_ms :=
  mixer_staleness_bound exCfg16k wReadyState (frame16k [1] AudioStreamSource.System)
    (by intro s; cases s <;> simp [wReadyState, frame16k])
    (by decide) (by decide) (by decide) rfl rfl (by decide)
    AudioStreamSource.System (frame16k [1, 2] AudioStreamSource.System) (by decide)

theorem accepts_iff (cfg : MixerConfig) (frame : AudioFrame) :
    accepts cfg frame = true ↔
      (frame.source ∈ cfg.enabled_sources ∧ frame.sample_rate = cfg.sample_rate
        ∧ frame.channels = cfg.channels) := by
  unfold accepts
  simp only [Bool.and_eq_true, decide_eq_true_eq, beq_iff_eq]
  tauto

theorem acceptedSamples_nil (cfg : MixerConfig) (s : AudioStreamSource) :
    acceptedSamples cfg [] s = 0 := rfl

theorem acceptedSamples_cons (cfg : MixerConfig) (frame : AudioFrame)
    (rest : List AudioFrame) (s : AudioStreamSource) :
    acceptedSamples cfg (frame :: rest) s
      = (if accepts cfg frame && (frame.source == s) then frame.samples.length
         else 0) + acceptedSamples cfg rest s := by
  unfold acceptedSamples
  rw [List.filter_cons]
  split
  · rename_i hcond
    simp [hcond]
  · rename_i hcond
    simp [hcond]

theorem buffer_frame_acc_step (cfg : MixerConfig) (st : MixerState)
    (frame : AudioFrame) (ht : 0 < targetSize cfg.sample_rate)
    (s : AudioStreamSource)
    (hr : (st.frame_accumulator s).length < targetSize cfg.sample_rate) :
    ((buffer_frame cfg st frame).frame_accumulator s).length
        = ((st.frame_accumulator s).length
            + (if accepts cfg frame && (frame.source == s)
               then frame.samples.length else 0))
          % targetSize cfg.sample_rate ∧
    ((buffer_frame cfg st frame).frame_accumulator s).length
        < targetSize cfg.sample_rate := by
  by_cases hacc : frame.source ∈ cfg.enabled_sources
      ∧ frame.sample_rate = cfg.sample_rate ∧ frame.channels = cfg.channels
  · obtain ⟨h1, h2, h3⟩ := hacc
    rw [buffer_frame_accepted cfg st frame h1 h2 h3]
    have hclacc : (cleanup_old_frames cfg
        (buffer_frame_accumulate cfg st frame)).frame_accumulator
      = (buffer_frame_accumulate cfg st frame).frame_accumulator := rfl
    rw [hclacc]
    obtain ⟨pushed, hb, hlen, hts, hflat, hlt, hdiff, hmod, hother, hpos⟩ :=
      buffer_frame_accumulate_spec cfg st frame h1 h2 h3 ht
    have haccb : accepts cfg frame = true := (accepts_iff cfg frame).mpr ⟨h1, h2, h3⟩
    by_cases hsf : frame.source = s
    · subst hsf
      refine ⟨?_, hlt⟩
      rw [hmod]
      simp [haccb]
    · rw [(hother s fun e => hsf e.symm).2]
      have hcond : (accepts cfg frame && (frame.source == s)) = false := by
        simp [hsf]
      rw [hcond]
      simp [Nat.mod_eq_of_lt hr, hr]
  · rw [buffer_frame_rejected cfg st frame hacc]
    have hcond : accepts cfg frame = false :=
      Bool.eq_false_iff.mpr fun htr => hacc ((accepts_iff cfg frame).mp htr)
    rw [hcond]
    simp [Nat.mod_eq_of_lt hr, hr]

theorem mixStep_inv (cfg : MixerConfig) (st : MixerState) (frame : AudioFrame)
    (st1 : MixerState) (o : Option AudioFrame)
    (h : mixStep cfg st frame = .ok (st1, o)) :
    mix_next_chunk cfg (buffer_frame cfg st frame) = .ok (o, st1) := by
  rw [mixStep] at h
  split at h
  · cases h
  · rename_i o' st'' heq
    simp only [Except.ok.injEq, Prod.mk.injEq] at h
    rw [← h.1, ← h.2]
    exact heq

theorem mixFlush_acc (cfg : MixerConfig) :
    ∀ (fuel : Nat) (st st' : MixerState) (outs : List AudioFrame),
      mixFlush cfg fuel st = .ok (st', outs) →
      st'.frame_accumulator = st.frame_accumulator := by
  intro fuel
  induction fuel with
  | zero =>
      intro st st' outs h
      simp only [mixFlush, Except.ok.injEq, Prod.mk.injEq] at h
      rw [← h.1]
  | succ fuel ih =>
      intro st st' outs h
      rw [mixFlush] at h
      split at h
      · cases h
      · rename_i st1 hchunk
        simp only [Except.ok.injEq, Prod.mk.injEq] at h
        rw [← h.1]
        exact mix_next_chunk_acc cfg st none st1 hchunk
      · rename_i g st1 hchunk
        split at h
        · cases h
        · rename_i st2 outs2 hrest
          simp only [Except.ok.injEq, Prod.mk.injEq] at h
          rw [← h.1, ih st1 st2 outs2 hrest]
          exact mix_next_chunk_acc cfg st (some g) st1 hchunk

theorem mixLoop_acc (cfg : MixerConfig) (ht : 0 < targetSize cfg.sample_rate) :
    ∀ (input : List AudioFrame) (st st' : MixerState) (outs : List AudioFrame),
      mixLoop cfg st input = .ok (st', outs) →
      ∀ s, (st.frame_accumulator s).length < targetSize cfg.sample_rate →
        (st'.frame_accumulator s).length
            = ((st.frame_accumulator s).length + acceptedSamples cfg input s)
              % targetSize cfg.sample_rate ∧
        (st'.frame_accumulator s).length < targetSize cfg.sample_rate := by
  intro input
  induction input with
  | nil =>
      intro st st' outs h s hr
      simp only [mixLoop, Except.ok.injEq, Prod.mk.injEq] at h
      rw [← h.1, acceptedSamples_nil]
      simp [Nat.mod_eq_of_lt hr, hr]
  | cons frame rest ih =>
      intro st st' outs h s hr
      rw [mixLoop] at h
      split at h
      · cases h
      · rename_i st1 o hstep
        split at h
        · cases h
        · rename_i st2 outs2 hrest
          simp only [Except.ok.injEq, Prod.mk.injEq] at h
          rw [← h.1]
          have hnext := mixStep_inv cfg st frame st1 o hstep
          have hacc1 := mix_next_chunk_acc cfg _ o st1 hnext
          have hbuf := buffer_frame_acc_step cfg st frame ht s hr
          have hr1 : (st1.frame_accumulator s).length < targetSize cfg.sample_rate := by
            rw [hacc1]
            exact hbuf.2
          have hmain := ih st1 st2 outs2 hrest s hr1
          refine ⟨?_, hmain.2⟩
          rw [hmain.1, hacc1, hbuf.1, acceptedSamples_cons, Nat.mod_add_mod,
            Nat.add_assoc]

/-- C9: over any finite input stream, when `mix` completes, each
source's accumulator still holds the partial standard-duration unit that
was never emitted: its length is the total accepted sample count mod the
unit size and is strictly below one unit — up to one unit minus one
sample per source is silently discarded (never emitted), since emission
only ever consumes the ready queues. -/
theorem mix_discards_partial_units (cfg : MixerConfig) (fuel : Nat)
    (input : List AudioFrame) (ht : 0 < targetSize cfg.sample_rate)
    (st' : MixerState) (outs : List AudioFrame)
    (h : mix cfg fuel input = .ok (st', outs)) :
    ∀ s, (st'.frame_accumulator s).length
        = acceptedSamples cfg input s % targetSize cfg.sample_rate ∧
      (st'.frame_accumulator s).length < targetSize cfg.sample_rate := by
  rw [mix] at h
  split at h
  · cases h
  · rename_i st1 outs1 hloop
    split at h
    · cases h
    · rename_i st2 outs2 hflush
      simp only [Except.ok.injEq, Prod.mk.injEq] at h
      rw [← h.1]
      intro s
      have hinit : (MixerState.initial.frame_accumulator s).length
          < targetSize cfg.sample_rate := by
        simpa [MixerState.initial] using ht
      have hl := mixLoop_acc cfg ht input MixerState.initial st1 outs1 hloop s hinit
      have hfl := mixFlush_acc cfg fuel st1 st2 outs2 hflush
      rw [hfl]
      refine ⟨?_, hl.2⟩
      rw [hl.1]
      simp [MixerState.initial]

/-- Witness for C9 on a 3-sample frame at a 2-sample unit: one sample
stays in the accumulator. -/
theorem mix_discards_partial_units_witness :
    (((mixResult w9Cfg 2 w9Input).1).frame_accumulator
        AudioStreamSource.System).length
      = acceptedSamples w9Cfg w9Input AudioStreamSource.System
          % targetSize w9Cfg.sample_rate ∧
    (((mixResult w9Cfg 2 w9Input).1).frame_accumulator
        AudioStreamSource.System).length
      < targetSize w9Cfg.sample_rate :=
  mix_discards_partial_units w9Cfg 2 w9Input (by decide)
    (mixResult w9Cfg 2 w9Input).1 (mixResult w9Cfg 2 w9Input).2 rfl
    AudioStreamSource.System

end LoqaMeetings
